import Mathlib

/-!
Shallow embedding of the `fsm-rs` finite-state-machine engine
(`src/fsm.rs`, `src/error.rs`, `src/event.rs`).

States and events are identified by their canonical string names: the Rust
engine is generic over identifier types but keys every map by the string
produced by `to_string`/`as_ref`, and the `FSMState` contract requires that
normalization to be injective, so `String` is the faithful carrier.

Rust `HashMap`s are modelled as association lists where `insert` conses the
new binding at the front and `lookup` returns the first match, which gives
the same last-write-wins semantics for every operation the engine performs
(`get`, `contains_key`, and an order-independent scan of the key set).

A callback (`Action::call`) is modelled as a pure function from the
`Event` record to `Option String`: `none` is `Ok(())` and `some msg` is
`Err(e)` with `e.to_string() = msg`.  The `args` payload is opaque to the
engine (it is only forwarded to callbacks), so it is folded into the
callback function itself.

`on_event` additionally returns the trace of callback-registry keys whose
callbacks were invoked, in invocation order, so that the ordering claims
can be stated; the trace is a ghost output that the control flow of the
Rust code uniquely determines.
-/

namespace Fsm

/-- CallbackType from `fsm.rs`: the situation when a callback runs
(`None` is the failed-resolution marker used only during construction). -/
inductive CallbackType where
  | None
  | BeforeEvent
  | LeaveState
  | EnterState
  | AfterEvent
deriving DecidableEq

/-- EKey from `fsm.rs`: key of the transition map, an event name paired
with the source state it can fire from. -/
structure EKey where
  event : String
  src : String
deriving DecidableEq

/-- CKey from `fsm.rs`: key of the callback registry, a target name
(state, event, or the empty string for an untargeted hook) paired
with the callback type. -/
structure CKey where
  target : String
  callback_type : CallbackType
deriving DecidableEq

/-- Event from `event.rs`: the record passed by reference to callbacks
(the opaque `args` payload is folded into the callback functions). -/
structure Event where
  event : String
  src : String
  dst : String
deriving DecidableEq

/-- A callback: `none` models `Ok(())`, `some msg` models an error whose
`to_string()` is `msg`. -/
abbrev Cb := Event → Option String

/-- FSMError from `error.rs`. -/
inductive FSMError where
  | NoTransitionWithError (msg : String)
  | NoTransition
  | InternalError (msg : String)
  | UnknownEvent (e : String)
  | InvalidEvent (e : String) (s : String)
deriving DecidableEq

/-- FSM from `fsm.rs`: the current state, the transition map and the
callback registry. -/
structure FSM where
  current : String
  transitions : List (EKey × String)
  callbacks : List (CKey × Cb)

/-- HashMap `get` on the transition map (first match wins; inserts cons at
the front, so the first match is the most recent write). -/
def lookupE : List (EKey × String) → EKey → Option String
  | [], _ => none
  | kv :: rest, k => if kv.1 = k then some kv.2 else lookupE rest k

/-- HashMap `contains_key` on the transition map. -/
def containsE (m : List (EKey × String)) (k : EKey) : Bool :=
  m.any (fun kv => kv.1 == k)

/-- HashMap `get` on the callback registry. -/
def lookupC : List (CKey × Cb) → CKey → Option Cb
  | [], _ => none
  | kv :: rest, k => if kv.1 = k then some kv.2 else lookupC rest k

/-- One `if let Some(f) = self.callbacks.get(..) { f.call(e)? }` step:
returns the keys invoked (empty if the key is unregistered) and the
callback's outcome. -/
def callOpt (cbs : List (CKey × Cb)) (k : CKey) (e : Event) :
    List CKey × Option String :=
  match lookupC cbs k with
  | some f => ([k], f e)
  | none => ([], none)

/-- A two-step callback phase: the targeted key first, then the untargeted
key, short-circuiting on the first error (the `?` operator). -/
def phase2 (cbs : List (CKey × Cb)) (k₁ k₂ : CKey) (e : Event) :
    List CKey × Option String :=
  let c₁ := callOpt cbs k₁ e
  match c₁.2 with
  | some err => (c₁.1, some err)
  | none =>
    let c₂ := callOpt cbs k₂ e
    (c₁.1 ++ c₂.1, c₂.2)

/-- FSM::before_event_callbacks: `Before(event)` then `BeforeEvent`. -/
def before_event_callbacks (fsm : FSM) (e : Event) : List CKey × Option String :=
  phase2 fsm.callbacks ⟨e.event, CallbackType.BeforeEvent⟩
    ⟨"", CallbackType.BeforeEvent⟩ e

/-- FSM::after_event_callbacks: `After(event)` then `AfterEvent`. -/
def after_event_callbacks (fsm : FSM) (e : Event) : List CKey × Option String :=
  phase2 fsm.callbacks ⟨e.event, CallbackType.AfterEvent⟩
    ⟨"", CallbackType.AfterEvent⟩ e

/-- FSM::enter_state_callbacks: `Enter(current)` then `EnterState`; the
dispatcher calls it after the commit, so `fsm.current` is the destination. -/
def enter_state_callbacks (fsm : FSM) (e : Event) : List CKey × Option String :=
  phase2 fsm.callbacks ⟨fsm.current, CallbackType.EnterState⟩
    ⟨"", CallbackType.EnterState⟩ e

/-- FSM::leave_state_callbacks: `Leave(current)` then `LeaveState`. -/
def leave_state_callbacks (fsm : FSM) (e : Event) : List CKey × Option String :=
  phase2 fsm.callbacks ⟨fsm.current, CallbackType.LeaveState⟩
    ⟨"", CallbackType.LeaveState⟩ e

/-- FSM::on_event from `fsm.rs`, line by line.  Returns the call's result,
the FSM after the call, and the ghost trace of invoked callback keys. -/
def on_event (fsm : FSM) (event : String) :
    Except FSMError Unit × FSM × List CKey :=
  match lookupE fsm.transitions ⟨event, fsm.current⟩ with
  | none =>
    if fsm.transitions.any (fun kv => kv.1.event == event) then
      (Except.error (FSMError.InvalidEvent event fsm.current), fsm, [])
    else
      (Except.error (FSMError.UnknownEvent event), fsm, [])
  | some dst =>
    let e : Event := ⟨event, fsm.current, dst⟩
    let b := before_event_callbacks fsm e
    match b.2 with
    | some err => (Except.error (FSMError.InternalError err), fsm, b.1)
    | none =>
      if fsm.current = dst then
        let a := after_event_callbacks fsm e
        match a.2 with
        | some err =>
          (Except.error (FSMError.NoTransitionWithError err), fsm, b.1 ++ a.1)
        | none => (Except.error FSMError.NoTransition, fsm, b.1 ++ a.1)
      else
        let l := leave_state_callbacks fsm e
        match l.2 with
        | some err => (Except.error (FSMError.InternalError err), fsm, b.1 ++ l.1)
        | none =>
          let fsm' : FSM := { fsm with current := dst }
          (Except.ok (), fsm',
            b.1 ++ l.1 ++ (enter_state_callbacks fsm' e).1
              ++ (after_event_callbacks fsm' e).1)

/-- FSM::get_current. -/
def get_current (fsm : FSM) : String :=
  fsm.current

/-- FSM::is. -/
def is (fsm : FSM) (state : String) : Bool :=
  fsm.current == state

/-- FSM::can: `contains_key` on the transition map, a pure query. -/
def can (fsm : FSM) (event : String) : Bool :=
  containsE fsm.transitions ⟨event, fsm.current⟩

/-- EventDesc from `fsm.rs`: one transition rule given to the constructor. -/
structure EventDesc where
  name : String
  src : List String
  dst : String

/-- HookType from `fsm.rs`: the hook-registration keys accepted by the
constructor. -/
inductive HookType where
  | Before (t : String)
  | After (t : String)
  | Leave (s : String)
  | Enter (s : String)
  | Custom (t : String)
  | BeforeEvent
  | AfterEvent
  | LeaveState
  | EnterState

/-- The body of the first loop of FSM::new, processing one event
descriptor into the accumulated `(all_events, all_states, transitions)`:
`all_events` is extended once per descriptor, while `all_states` and
`transitions` are extended only inside the inner loop over the
descriptor's `src` list. -/
def recordDesc (acc : List String × List String × List (EKey × String))
    (e : EventDesc) : List String × List String × List (EKey × String) :=
  (e.name :: acc.1,
    e.src.foldl (fun st s => s :: e.dst :: st) acc.2.1,
    e.src.foldl (fun tr s => (EKey.mk e.name s, e.dst) :: tr) acc.2.2)

/-- The first loop of FSM::new: one pass over the event descriptors
building `(all_events, all_states, transitions)`.  The two auxiliary
sets are lists used only through membership (they model
`HashMap<String, bool>` key sets). -/
def buildTables (events : List EventDesc) :
    List String × List String × List (EKey × String) :=
  events.foldl recordDesc ([], [], [])

/-- The known-event name set recorded by FSM::new. -/
def knownEvents (events : List EventDesc) : List String :=
  (buildTables events).1

/-- The known-state name set recorded by FSM::new. -/
def knownStates (events : List EventDesc) : List String :=
  (buildTables events).2.1

/-- The transition map built by FSM::new. -/
def builtTransitions (events : List EventDesc) : List (EKey × String) :=
  (buildTables events).2.2

/-- The `match name` of the second loop of FSM::new: resolve a hook key to
its registry target and callback type; a `Custom` hook's type is inferred
from the known-state and known-event sets, `CallbackType.None` marking a
failed resolution. -/
def resolveHook (all_states all_events : List String) :
    HookType → String × CallbackType
  | HookType.BeforeEvent => ("", CallbackType.BeforeEvent)
  | HookType.AfterEvent => ("", CallbackType.AfterEvent)
  | HookType.Before t => (t, CallbackType.BeforeEvent)
  | HookType.After t => (t, CallbackType.AfterEvent)
  | HookType.LeaveState => ("", CallbackType.LeaveState)
  | HookType.EnterState => ("", CallbackType.EnterState)
  | HookType.Leave t => (t, CallbackType.LeaveState)
  | HookType.Enter t => (t, CallbackType.EnterState)
  | HookType.Custom t =>
    (t,
      if t ∈ all_states then CallbackType.EnterState
      else if t ∈ all_events then CallbackType.AfterEvent
      else CallbackType.None)

/-- The body of the second loop of FSM::new: resolve one hook and insert
it into the callback registry unless its resolution failed. -/
def recordHook (all_states all_events : List String)
    (cbs : List (CKey × Cb)) (h : HookType × Cb) : List (CKey × Cb) :=
  let r := resolveHook all_states all_events h.1
  if r.2 ≠ CallbackType.None then (CKey.mk r.1 r.2, h.2) :: cbs else cbs

/-- The second loop of FSM::new. -/
def buildCallbacks (all_states all_events : List String)
    (hooks : List (HookType × Cb)) : List (CKey × Cb) :=
  hooks.foldl (recordHook all_states all_events) []

/-- FSM::new from `fsm.rs`. -/
def FSM.new (initial : String) (events : List EventDesc)
    (hooks : List (HookType × Cb)) : FSM :=
  { current := initial
    transitions := builtTransitions events
    callbacks := buildCallbacks (knownStates events) (knownEvents events) hooks }

/-- Drive the FSM through a sequence of events by repeated `on_event`
calls, collecting the results. -/
def runEvents (fsm : FSM) : List String → List (Except FSMError Unit) × FSM
  | [] => ([], fsm)
  | ev :: rest =>
    let step := on_event fsm ev
    let tail := runEvents step.2.1 rest
    (step.1 :: tail.1, tail.2)

/-- Every registered callback is a no-op: it succeeds on every event.  An
empty registry (no callbacks) satisfies this vacuously. -/
def Noop (cbs : List (CKey × Cb)) : Prop :=
  ∀ k f, lookupC cbs k = some f → ∀ e, f e = none

/-- The errors `on_event` can return before the commit point (state
assignment): lookup failures and before/leave callback failures. -/
def FSMError.preCommit : FSMError → Bool
  | FSMError.UnknownEvent _ => true
  | FSMError.InvalidEvent _ _ => true
  | FSMError.InternalError _ => true
  | _ => false

/-! Concrete state, event and message names (the open/close door machine
of the repository's tests), used by the evaluation theorems below. -/

def sClosed : String := "closed"

def sOpened : String := "opened"

def sGhost : String := "ghost"

def eOpen : String := "open"

def eClose : String := "close"

def eLoop : String := "loop"

def eMissing : String := "missing"

def msgFail : String := "fail"

/-- A callback that always succeeds. -/
def cbOk : Cb := fun _ => none

/-- A callback that always fails with message `msgFail`. -/
def cbFail : Cb := fun _ => some msgFail

/-- The open/close transition rules used throughout the repository's
tests. -/
def descs : List EventDesc :=
  [EventDesc.mk eOpen [sClosed] sOpened, EventDesc.mk eClose [sOpened] sClosed]

/-- The open/close transition map. -/
def doorTransitions : List (EKey × String) :=
  [(EKey.mk eOpen sClosed, sOpened), (EKey.mk eClose sOpened, sClosed)]

/-- The door machine with no callbacks, in state `closed`. -/
def fsmA : FSM :=
  { current := sClosed
    transitions := doorTransitions
    callbacks := [] }

/-- The door machine whose enter-state and after-event hooks always fail. -/
def fsmB : FSM :=
  { current := sClosed
    transitions := doorTransitions
    callbacks :=
      [(CKey.mk "" CallbackType.EnterState, cbFail),
        (CKey.mk "" CallbackType.AfterEvent, cbFail)] }

/-- The door machine with succeeding callbacks at all 8 hook points of
the `open` transition from `closed` to `opened`. -/
def fsmC : FSM :=
  { current := sClosed
    transitions := doorTransitions
    callbacks :=
      [(CKey.mk eOpen CallbackType.BeforeEvent, cbOk),
        (CKey.mk "" CallbackType.BeforeEvent, cbOk),
        (CKey.mk sClosed CallbackType.LeaveState, cbOk),
        (CKey.mk "" CallbackType.LeaveState, cbOk),
        (CKey.mk sOpened CallbackType.EnterState, cbOk),
        (CKey.mk "" CallbackType.EnterState, cbOk),
        (CKey.mk eOpen CallbackType.AfterEvent, cbOk),
        (CKey.mk "" CallbackType.AfterEvent, cbOk)] }

/-- A machine with a single self-loop rule and no callbacks. -/
def fsmD : FSM :=
  { current := sClosed
    transitions := [(EKey.mk eLoop sClosed, sClosed)]
    callbacks := [] }

/-- A no-op callback registry with one registered hook. -/
def noopRegistry : List (CKey × Cb) :=
  [(CKey.mk "" CallbackType.BeforeEvent, cbOk)]

/-! Helper lemmas shared by the claim theorems. -/

theorem containsE_iff (m : List (EKey × String)) (k : EKey) :
    containsE m k = true ↔ ∃ dst, lookupE m k = some dst := by
  induction m with
  | nil => simp [containsE, lookupE]
  | cons kv rest ih =>
    by_cases h : kv.1 = k
    · simp [containsE, lookupE, h]
    · have hb : (kv.1 == k) = false := beq_eq_false_iff_ne.mpr h
      simp only [containsE, List.any_cons, hb, Bool.false_or, lookupE, if_neg h]
      exact ih

theorem noop_nil : Noop [] := by
  intro k f h
  simp [lookupC] at h

theorem noop_noopRegistry : Noop noopRegistry := by
  intro k f h e
  simp only [noopRegistry, lookupC] at h
  split at h
  · cases h
    rfl
  · cases h

theorem callOpt_noop (cbs : List (CKey × Cb)) (hn : Noop cbs) (k : CKey)
    (e : Event) : (callOpt cbs k e).2 = none := by
  cases hl : lookupC cbs k with
  | some f => simp [callOpt, hl, hn _ _ hl e]
  | none => simp [callOpt, hl]

theorem phase2_noop (cbs : List (CKey × Cb)) (hn : Noop cbs) (k₁ k₂ : CKey)
    (e : Event) : (phase2 cbs k₁ k₂ e).2 = none := by
  simp only [phase2]
  cases hc : (callOpt cbs k₁ e).2 with
  | some err => rw [callOpt_noop cbs hn k₁ e] at hc; cases hc
  | none => simp [callOpt_noop cbs hn k₂ e]

theorem on_event_preserves (fsm : FSM) (ev : String) :
    (on_event fsm ev).2.1.transitions = fsm.transitions ∧
    (on_event fsm ev).2.1.callbacks = fsm.callbacks := by
  constructor <;>
  · simp only [on_event]
    split
    · split <;> rfl
    · split
      · rfl
      · split
        · split <;> rfl
        · split <;> rfl

/-! Claim theorems. -/

/-- C1: for every call to `on_event` that returns `UnknownEvent`,
`InvalidEvent` or `InternalError`, the current state after the call
equals the current state before the call — no mutation happens on any
pre-commit failure path. -/
theorem no_mutation_on_failure (fsm fsm2 : FSM) (ev : String)
    (err : FSMError) (tr : List CKey)
    (hrun : on_event fsm ev = (Except.error err, fsm2, tr))
    (herr : err.preCommit = true) :
    fsm2.current = fsm.current := by
  simp only [on_event] at hrun
  split at hrun
  · split at hrun <;>
    · simp only [Prod.mk.injEq] at hrun
      cases hrun.2.1
      rfl
  · split at hrun
    · simp only [Prod.mk.injEq] at hrun
      cases hrun.2.1
      rfl
    · split at hrun
      · split at hrun <;>
        · simp only [Prod.mk.injEq, Except.error.injEq] at hrun
          cases hrun.1
          simp [FSMError.preCommit] at herr
      · split at hrun
        · simp only [Prod.mk.injEq] at hrun
          cases hrun.2.1
          rfl
        · simp at hrun

/-- C1 witness: dispatching the unknown event `missing` on the door
machine leaves it in `closed`. -/
theorem no_mutation_on_failure_witness :
    (on_event fsmA eMissing).2.1.current = fsmA.current :=
  no_mutation_on_failure fsmA fsmA eMissing (FSMError.UnknownEvent eMissing)
    [] rfl rfl

/-- C2: for every real transition (destination differs from the current
state) whose before-event and leave-state phases succeed, `on_event`
commits the destination state and returns success; nothing is assumed
about the enter-state or after-event callbacks, so their failures are
swallowed and the committed state is never rolled back. -/
theorem commit_before_best_effort (fsm : FSM) (ev dst : String)
    (hlook : lookupE fsm.transitions (EKey.mk ev fsm.current) = some dst)
    (hne : fsm.current ≠ dst)
    (hbefore :
      (before_event_callbacks fsm (Event.mk ev fsm.current dst)).2 = none)
    (hleave :
      (leave_state_callbacks fsm (Event.mk ev fsm.current dst)).2 = none) :
    (on_event fsm ev).1 = Except.ok () ∧
      (on_event fsm ev).2.1.current = dst := by
  constructor <;> simp [on_event, hlook, hbefore, hleave, hne]

/-- C2 witness: on the door machine whose enter-state and after-event
hooks always fail, `open` from `closed` still succeeds and commits
`opened`. -/
theorem commit_before_best_effort_witness :
    (on_event fsmB eOpen).1 = Except.ok () ∧
      (on_event fsmB eOpen).2.1.current = sOpened :=
  commit_before_best_effort fsmB eOpen sOpened rfl (by decide) rfl rfl

/-- C3: with succeeding callbacks registered at all 8 hook points of a
real transition, `on_event` invokes them in exactly the order
`Before(E)`, `BeforeEvent`, `Leave(A)`, `LeaveState`, `Enter(B)`,
`EnterState`, `After(E)`, `AfterEvent` — in each phase the targeted
callback before the untargeted one. -/
theorem callback_ordering (fsm : FSM) (ev dst : String)
    (fB fBE fL fLS fEn fES fA fAE : Cb)
    (hlook : lookupE fsm.transitions (EKey.mk ev fsm.current) = some dst)
    (hne : fsm.current ≠ dst)
    (h1 : lookupC fsm.callbacks (CKey.mk ev CallbackType.BeforeEvent) = some fB)
    (s1 : fB (Event.mk ev fsm.current dst) = none)
    (h2 : lookupC fsm.callbacks (CKey.mk "" CallbackType.BeforeEvent) = some fBE)
    (s2 : fBE (Event.mk ev fsm.current dst) = none)
    (h3 : lookupC fsm.callbacks (CKey.mk fsm.current CallbackType.LeaveState) = some fL)
    (s3 : fL (Event.mk ev fsm.current dst) = none)
    (h4 : lookupC fsm.callbacks (CKey.mk "" CallbackType.LeaveState) = some fLS)
    (s4 : fLS (Event.mk ev fsm.current dst) = none)
    (h5 : lookupC fsm.callbacks (CKey.mk dst CallbackType.EnterState) = some fEn)
    (s5 : fEn (Event.mk ev fsm.current dst) = none)
    (h6 : lookupC fsm.callbacks (CKey.mk "" CallbackType.EnterState) = some fES)
    (s6 : fES (Event.mk ev fsm.current dst) = none)
    (h7 : lookupC fsm.callbacks (CKey.mk ev CallbackType.AfterEvent) = some fA)
    (s7 : fA (Event.mk ev fsm.current dst) = none)
    (h8 : lookupC fsm.callbacks (CKey.mk "" CallbackType.AfterEvent) = some fAE)
    (s8 : fAE (Event.mk ev fsm.current dst) = none) :
    (on_event fsm ev).2.2 =
      [CKey.mk ev CallbackType.BeforeEvent,
        CKey.mk "" CallbackType.BeforeEvent,
        CKey.mk fsm.current CallbackType.LeaveState,
        CKey.mk "" CallbackType.LeaveState,
        CKey.mk dst CallbackType.EnterState,
        CKey.mk "" CallbackType.EnterState,
        CKey.mk ev CallbackType.AfterEvent,
        CKey.mk "" CallbackType.AfterEvent] := by
  simp [on_event, before_event_callbacks, after_event_callbacks,
    leave_state_callbacks, enter_state_callbacks, phase2, callOpt, hlook, hne,
    h1, s1, h2, s2, h3, s3, h4, s4, h5, s5, h6, s6, h7, s7, h8, s8]

/-- C3 witness: the door machine with all 8 hooks registered invokes
them in the specified order on `open` from `closed` to `opened`. -/
theorem callback_ordering_witness :
    (on_event fsmC eOpen).2.2 =
      [CKey.mk eOpen CallbackType.BeforeEvent,
        CKey.mk "" CallbackType.BeforeEvent,
        CKey.mk sClosed CallbackType.LeaveState,
        CKey.mk "" CallbackType.LeaveState,
        CKey.mk sOpened CallbackType.EnterState,
        CKey.mk "" CallbackType.EnterState,
        CKey.mk eOpen CallbackType.AfterEvent,
        CKey.mk "" CallbackType.AfterEvent] :=
  callback_ordering fsmC eOpen sOpened cbOk cbOk cbOk cbOk cbOk cbOk cbOk cbOk
    rfl (by decide) rfl rfl rfl rfl rfl rfl rfl rfl rfl rfl rfl rfl rfl rfl
    rfl rfl

/-- C4: when no transition-table entry exists for the event and the
current state, `on_event` fails with `InvalidEvent` if some table key
carries the event name and with `UnknownEvent` otherwise; the FSM is
unchanged and no callback runs on either path. -/
theorem unknown_or_invalid_event (fsm fsm2 : FSM) (ev : String)
    (r : Except FSMError Unit) (tr : List CKey)
    (hlook : lookupE fsm.transitions (EKey.mk ev fsm.current) = none)
    (hrun : on_event fsm ev = (r, fsm2, tr)) :
    fsm2 = fsm ∧ tr = [] ∧
      ((∃ kv ∈ fsm.transitions, kv.1.event = ev) →
        r = Except.error (FSMError.InvalidEvent ev fsm.current)) ∧
      ((¬∃ kv ∈ fsm.transitions, kv.1.event = ev) →
        r = Except.error (FSMError.UnknownEvent ev)) := by
  simp only [on_event, hlook] at hrun
  split at hrun
  · rename_i hany
    have hex : ∃ kv ∈ fsm.transitions, kv.1.event = ev := by
      simpa using hany
    simp only [Prod.mk.injEq] at hrun
    obtain ⟨h1, h2, h3⟩ := hrun
    subst h1
    cases h2
    cases h3
    exact ⟨rfl, rfl, fun _ => rfl, fun hno => absurd hex hno⟩
  · rename_i hany
    have hnex : ¬∃ kv ∈ fsm.transitions, kv.1.event = ev := by
      simpa using hany
    simp only [Prod.mk.injEq] at hrun
    obtain ⟨h1, h2, h3⟩ := hrun
    subst h1
    cases h2
    cases h3
    exact ⟨rfl, rfl, fun hex => absurd hex hnex, fun _ => rfl⟩

/-- C4 witness: dispatching `missing` on the door machine (whose table
has no key with that event name) returns `UnknownEvent`, leaves the
machine untouched and runs no callback. -/
theorem unknown_or_invalid_event_witness :
    fsmA = fsmA ∧ ([] : List CKey) = [] ∧
      ((∃ kv ∈ fsmA.transitions, kv.1.event = eMissing) →
        (Except.error (FSMError.UnknownEvent eMissing) :
            Except FSMError Unit) =
          Except.error (FSMError.InvalidEvent eMissing fsmA.current)) ∧
      ((¬∃ kv ∈ fsmA.transitions, kv.1.event = eMissing) →
        (Except.error (FSMError.UnknownEvent eMissing) :
            Except FSMError Unit) =
          Except.error (FSMError.UnknownEvent eMissing)) :=
  unknown_or_invalid_event fsmA fsmA eMissing
    (Except.error (FSMError.UnknownEvent eMissing)) [] rfl rfl

/-- C5: when the matched rule maps the current state to itself and the
before-event phase succeeds, `on_event` runs the after-event phase and
returns `NoTransitionWithError` if it fails and `NoTransition`
otherwise; the current state is unchanged in both cases. -/
theorem self_transition_no_op (fsm fsm2 : FSM) (ev : String)
    (r : Except FSMError Unit) (tr : List CKey)
    (hlook :
      lookupE fsm.transitions (EKey.mk ev fsm.current) = some fsm.current)
    (hbefore :
      (before_event_callbacks fsm
        (Event.mk ev fsm.current fsm.current)).2 = none)
    (hrun : on_event fsm ev = (r, fsm2, tr)) :
    fsm2.current = fsm.current ∧
      (∀ msg,
        (after_event_callbacks fsm
          (Event.mk ev fsm.current fsm.current)).2 = some msg →
        r = Except.error (FSMError.NoTransitionWithError msg)) ∧
      ((after_event_callbacks fsm
          (Event.mk ev fsm.current fsm.current)).2 = none →
        r = Except.error FSMError.NoTransition) := by
  simp only [on_event, hlook, hbefore, if_true] at hrun
  split at hrun
  · rename_i msg heq
    simp only [Prod.mk.injEq] at hrun
    obtain ⟨h1, h2, h3⟩ := hrun
    subst h1
    cases h2
    refine ⟨rfl, fun m hm => ?_, fun hn => ?_⟩
    · rw [heq] at hm
      cases hm
      rfl
    · rw [heq] at hn
      cases hn
  · rename_i heq
    simp only [Prod.mk.injEq] at hrun
    obtain ⟨h1, h2, h3⟩ := hrun
    subst h1
    cases h2
    refine ⟨rfl, fun m hm => ?_, fun _ => rfl⟩
    rw [heq] at hm
    cases hm

/-- C5 witness: the self-loop machine returns `NoTransition` on `loop`
and stays in `closed`. -/
theorem self_transition_no_op_witness :
    fsmD.current = fsmD.current ∧
      (∀ msg,
        (after_event_callbacks fsmD
          (Event.mk eLoop fsmD.current fsmD.current)).2 = some msg →
        (Except.error FSMError.NoTransition : Except FSMError Unit) =
          Except.error (FSMError.NoTransitionWithError msg)) ∧
      ((after_event_callbacks fsmD
          (Event.mk eLoop fsmD.current fsmD.current)).2 = none →
        (Except.error FSMError.NoTransition : Except FSMError Unit) =
          Except.error FSMError.NoTransition) :=
  self_transition_no_op fsmD fsmD eLoop
    (Except.error FSMError.NoTransition) [] rfl rfl rfl

/-- C6: a `Custom(name)` hook is registered as an enter-state callback
when the name is a known state, as an after-event callback when it is
otherwise a known event, and is silently dropped when it is neither;
construction is a total function, so it never fails on hook
resolution. -/
theorem custom_hook_resolution (initial : String) (events : List EventDesc)
    (hooks : List (HookType × Cb)) (t : String) (f : Cb) :
    (t ∈ knownStates events →
      (FSM.new initial events (hooks ++ [(HookType.Custom t, f)])).callbacks =
        (CKey.mk t CallbackType.EnterState, f) ::
          (FSM.new initial events hooks).callbacks) ∧
    (t ∉ knownStates events → t ∈ knownEvents events →
      (FSM.new initial events (hooks ++ [(HookType.Custom t, f)])).callbacks =
        (CKey.mk t CallbackType.AfterEvent, f) ::
          (FSM.new initial events hooks).callbacks) ∧
    (t ∉ knownStates events → t ∉ knownEvents events →
      FSM.new initial events (hooks ++ [(HookType.Custom t, f)]) =
        FSM.new initial events hooks) := by
  have hb : buildCallbacks (knownStates events) (knownEvents events)
      (hooks ++ [(HookType.Custom t, f)]) =
      recordHook (knownStates events) (knownEvents events)
        (buildCallbacks (knownStates events) (knownEvents events) hooks)
        (HookType.Custom t, f) := by
    simp [buildCallbacks, List.foldl_append]
  refine ⟨fun hs => ?_, fun hs he => ?_, fun hs he => ?_⟩
  · simp only [FSM.new]
    rw [hb]
    simp [recordHook, resolveHook, hs]
  · simp only [FSM.new]
    rw [hb]
    simp [recordHook, resolveHook, hs, he]
  · simp only [FSM.new]
    rw [hb]
    simp [recordHook, resolveHook, hs, he]

/-- C6 witness: on the door rules, `Custom("opened")` resolves to an
enter-state hook, `Custom("open")` to an after-event hook, and
`Custom("ghost")` is dropped. -/
theorem custom_hook_resolution_witness :
    (FSM.new sClosed descs [(HookType.Custom sOpened, cbOk)]).callbacks =
      [(CKey.mk sOpened CallbackType.EnterState, cbOk)] ∧
    (FSM.new sClosed descs [(HookType.Custom eOpen, cbOk)]).callbacks =
      [(CKey.mk eOpen CallbackType.AfterEvent, cbOk)] ∧
    FSM.new sClosed descs [(HookType.Custom sGhost, cbOk)] =
      FSM.new sClosed descs [] :=
  ⟨(custom_hook_resolution sClosed descs [] sOpened cbOk).1 (by decide),
    (custom_hook_resolution sClosed descs [] eOpen cbOk).2.1 (by decide)
      (by decide),
    (custom_hook_resolution sClosed descs [] sGhost cbOk).2.2 (by decide)
      (by decide)⟩

theorem on_event_noop_agrees (fsm₁ fsm₂ : FSM) (ev : String)
    (hc : fsm₁.current = fsm₂.current)
    (ht : fsm₁.transitions = fsm₂.transitions)
    (h₁ : Noop fsm₁.callbacks) (h₂ : Noop fsm₂.callbacks) :
    (on_event fsm₁ ev).1 = (on_event fsm₂ ev).1 ∧
    (on_event fsm₁ ev).2.1.current = (on_event fsm₂ ev).2.1.current := by
  constructor <;>
  · simp only [on_event, hc, ht]
    cases hl : lookupE fsm₂.transitions (EKey.mk ev fsm₂.current) with
    | none => split_ifs <;> simp [hc]
    | some dst =>
      simp only [before_event_callbacks, after_event_callbacks,
        leave_state_callbacks, phase2_noop _ h₁, phase2_noop _ h₂]
      by_cases hd : fsm₂.current = dst
      · simp [hd, hc]
      · simp [hd, hc]

/-- C7: dispatch is deterministic — two machines with the same current
state and the same transition table, each carrying only no-op callbacks
(possibly none at all), produce the same sequence of results and end in
the same current state on any sequence of events; instantiating both
machines identically gives the literal replay property. -/
theorem determinism_replay (evs : List String) (fsm₁ fsm₂ : FSM)
    (hc : fsm₁.current = fsm₂.current)
    (ht : fsm₁.transitions = fsm₂.transitions)
    (h₁ : Noop fsm₁.callbacks) (h₂ : Noop fsm₂.callbacks) :
    (runEvents fsm₁ evs).1 = (runEvents fsm₂ evs).1 ∧
    (runEvents fsm₁ evs).2.current = (runEvents fsm₂ evs).2.current := by
  induction evs generalizing fsm₁ fsm₂ with
  | nil => exact ⟨rfl, hc⟩
  | cons ev rest ih =>
    obtain ⟨hr, hcur⟩ := on_event_noop_agrees fsm₁ fsm₂ ev hc ht h₁ h₂
    have hp₁ := on_event_preserves fsm₁ ev
    have hp₂ := on_event_preserves fsm₂ ev
    have htl := ih (on_event fsm₁ ev).2.1 (on_event fsm₂ ev).2.1 hcur
      (by rw [hp₁.1, hp₂.1, ht])
      (by rw [hp₁.2]; exact h₁)
      (by rw [hp₂.2]; exact h₂)
    constructor
    · simp [runEvents, hr, htl.1]
    · simpa [runEvents] using htl.2

/-- C7 witness: the bare door machine and the door machine with one
registered no-op hook agree on results and final state over the event
sequence `open`, `close`, `close`. -/
theorem determinism_replay_witness :
    (runEvents fsmA [eOpen, eClose, eClose]).1 =
      (runEvents { fsmA with callbacks := noopRegistry }
        [eOpen, eClose, eClose]).1 ∧
    (runEvents fsmA [eOpen, eClose, eClose]).2.current =
      (runEvents { fsmA with callbacks := noopRegistry }
        [eOpen, eClose, eClose]).2.current :=
  determinism_replay [eOpen, eClose, eClose] fsmA
    { fsmA with callbacks := noopRegistry } rfl rfl noop_nil noop_noopRegistry

/-- C8: `can(event)` is true exactly when the transition map has a key
for the event name and the current state.  `can` is a pure Lean function
of the machine, so totality, absence of side effects, of callback
invocations and of state mutation hold by construction. -/
theorem can_iff_transition_key (fsm : FSM) (ev : String) :
    can fsm ev = true ↔
      ∃ dst, lookupE fsm.transitions (EKey.mk ev fsm.current) = some dst :=
  containsE_iff fsm.transitions (EKey.mk ev fsm.current)

/-- C8 witness: `can` of the self-loop machine at `loop` matches key
existence. -/
theorem can_iff_transition_key_witness :
    can fsmD eLoop = true ↔
      ∃ dst, lookupE fsmD.transitions (EKey.mk eLoop fsmD.current) =
        some dst :=
  can_iff_transition_key fsmD eLoop

/-- C9: `can` returning true does not imply that `on_event` succeeds: a
rule whose destination equals its source makes `can` true while
`on_event` with no failing callbacks returns the `NoTransition` error. -/
theorem can_without_transition (fsm : FSM) (ev : String)
    (hlook :
      lookupE fsm.transitions (EKey.mk ev fsm.current) = some fsm.current)
    (hn : Noop fsm.callbacks) :
    can fsm ev = true ∧
      (on_event fsm ev).1 = Except.error FSMError.NoTransition := by
  constructor
  · exact (containsE_iff _ _).mpr ⟨fsm.current, hlook⟩
  · simp [on_event, hlook, before_event_callbacks, after_event_callbacks,
      phase2_noop _ hn]

/-- C9 witness: the self-loop machine can fire `loop` but dispatching it
returns `NoTransition`. -/
theorem can_without_transition_witness :
    can fsmD eLoop = true ∧
      (on_event fsmD eLoop).1 = Except.error FSMError.NoTransition :=
  can_without_transition fsmD eLoop rfl noop_nil

theorem mem_srcFoldTransitions (ename edst : String) (src : List String)
    (acc : List (EKey × String)) (kv : EKey × String)
    (h : kv ∈ src.foldl (fun tr s => (EKey.mk ename s, edst) :: tr) acc) :
    kv ∈ acc ∨ kv.1.event = ename := by
  induction src generalizing acc with
  | nil => exact Or.inl h
  | cons s rest ih =>
    simp only [List.foldl_cons] at h
    rcases ih _ h with h1 | h1
    · rcases List.mem_cons.mp h1 with h2 | h2
      · subst h2
        exact Or.inr rfl
      · exact Or.inl h2
    · exact Or.inr h1

theorem mem_foldTransitions (events : List EventDesc)
    (acc : List String × List String × List (EKey × String))
    (kv : EKey × String)
    (h : kv ∈ (events.foldl recordDesc acc).2.2) :
    kv ∈ acc.2.2 ∨ ∃ e ∈ events, kv.1.event = e.name := by
  induction events generalizing acc with
  | nil => exact Or.inl h
  | cons e rest ih =>
    simp only [List.foldl_cons] at h
    rcases ih _ h with h1 | h1
    · rcases mem_srcFoldTransitions e.name e.dst e.src acc.2.2 kv h1 with
        h2 | h2
      · exact Or.inl h2
      · exact Or.inr ⟨e, List.mem_cons_self _ _, h2⟩
    · obtain ⟨e2, he2, hev⟩ := h1
      exact Or.inr ⟨e2, List.mem_cons_of_mem _ he2, hev⟩

theorem builtTransitions_event_of_mem (events : List EventDesc)
    (kv : EKey × String) (h : kv ∈ builtTransitions events) :
    ∃ e ∈ events, kv.1.event = e.name := by
  rcases mem_foldTransitions events ([], [], []) kv h with h1 | h1
  · exact absurd h1 (by simp)
  · exact h1

theorem lookupE_none_of_event (m : List (EKey × String)) (k : EKey)
    (h : ∀ kv ∈ m, kv.1.event ≠ k.event) : lookupE m k = none := by
  induction m with
  | nil => rfl
  | cons kv rest ih =>
    have hne : ¬(kv.1 = k) := fun he =>
      h kv (List.mem_cons_self _ _) (by rw [he])
    simp only [lookupE, if_neg hne]
    exact ih fun kv2 hm => h kv2 (List.mem_cons_of_mem _ hm)

theorem any_event_eq_false (m : List (EKey × String)) (n : String)
    (h : ∀ kv ∈ m, kv.1.event ≠ n) :
    (m.any fun kv => kv.1.event == n) = false := by
  simp only [List.any_eq_false, beq_iff_eq]
  exact h

/-- C10: a rule with an empty `src` list contributes no transition-table
entry and does not record its `dst` as a known state, yet its event name
is recorded as known (so it influences `Custom` hook inference); when no
other rule carries that event name, dispatching it yields `UnknownEvent`
rather than `InvalidEvent`. -/
theorem empty_src_rule (initial : String) (events : List EventDesc)
    (hooks : List (HookType × Cb)) (n d : String)
    (hname : ∀ e ∈ events, e.name ≠ n) :
    builtTransitions (events ++ [EventDesc.mk n [] d]) =
      builtTransitions events ∧
    knownStates (events ++ [EventDesc.mk n [] d]) = knownStates events ∧
    n ∈ knownEvents (events ++ [EventDesc.mk n [] d]) ∧
    (on_event (FSM.new initial (events ++ [EventDesc.mk n [] d]) hooks)
        n).1 =
      Except.error (FSMError.UnknownEvent n) := by
  have hstep : buildTables (events ++ [EventDesc.mk n [] d]) =
      recordDesc (buildTables events) (EventDesc.mk n [] d) := by
    simp [buildTables, List.foldl_append]
  have htr : builtTransitions (events ++ [EventDesc.mk n [] d]) =
      builtTransitions events := by
    simp [builtTransitions, hstep, recordDesc]
  have hst : knownStates (events ++ [EventDesc.mk n [] d]) =
      knownStates events := by
    simp [knownStates, hstep, recordDesc]
  have hev : n ∈ knownEvents (events ++ [EventDesc.mk n [] d]) := by
    simp [knownEvents, hstep, recordDesc]
  refine ⟨htr, hst, hev, ?_⟩
  have hkv : ∀ kv ∈ builtTransitions events, kv.1.event ≠ n := by
    intro kv hm
    obtain ⟨e, hmem, heq⟩ := builtTransitions_event_of_mem events kv hm
    rw [heq]
    exact hname e hmem
  have htrans :
      (FSM.new initial (events ++ [EventDesc.mk n [] d]) hooks).transitions =
      builtTransitions events := htr
  have hcur :
      (FSM.new initial (events ++ [EventDesc.mk n [] d]) hooks).current =
      initial := rfl
  simp only [on_event, htrans, hcur]
  rw [lookupE_none_of_event _ _ (fun kv hm => hkv kv hm)]
  rw [any_event_eq_false _ _ hkv]
  simp

/-- C10 witness: appending the rule `loop: [] → ghost` to the door rules
adds no transition entry, records no state, records the event `loop`,
and dispatching `loop` returns `UnknownEvent`. -/
theorem empty_src_rule_witness :
    builtTransitions (descs ++ [EventDesc.mk eLoop [] sGhost]) =
      builtTransitions descs ∧
    knownStates (descs ++ [EventDesc.mk eLoop [] sGhost]) =
      knownStates descs ∧
    eLoop ∈ knownEvents (descs ++ [EventDesc.mk eLoop [] sGhost]) ∧
    (on_event (FSM.new sClosed (descs ++ [EventDesc.mk eLoop [] sGhost]) [])
        eLoop).1 =
      Except.error (FSMError.UnknownEvent eLoop) :=
  empty_src_rule sClosed descs [] eLoop sGhost (by decide)

end Fsm
